import Mathlib

/-!
Verification of the actor-critic reinforcement-learning core of this
repository (files `nn.py`, `critics/a2cvalue.py`, `actors/ppo_actor.py`,
`actors/a2cactor.py`).

Modelling conventions:
* A 1-D torch tensor is a `List` of exact field elements (`ℚ`-instantiable
  generic field `K` for purely rational arithmetic, `ℝ` where the source
  uses `exp`/`log`).  A 0-D (scalar) tensor produced by `.mean()` is a
  one-element list where it participates in further tensor arithmetic.
* Batched elementwise torch operations act independently along batch
  dimensions, so batched quantities are modelled per batch element.
* torch runtime failures (shape mismatches, out-of-range indexing,
  reductions over empty dimensions, missing-argument `ValueError`) are
  modelled with `Except PyErr`.
* torch 1-D broadcasting: two sizes are compatible when they are equal or
  one of them is `1`; in-place ops (`copy_`, `add_`) additionally may not
  grow the destination.  Broadcasting of empty-vs-singleton follows torch
  (result is empty).
-/

/-- Runtime errors of the modelled Python/torch code. -/
inductive PyErr where
  /-- torch RuntimeError on incompatible tensor shapes. -/
  | runtimeShape
  /-- torch RuntimeError: reduction (`torch.max`) over an empty dimension. -/
  | emptyMax
  /-- IndexError: indexing a tensor dimension out of range. -/
  | indexError
  /-- ValueError raised by `ppo_actor.loss` when `old_distr` is missing. -/
  | valueErrorMissingOldDistr
deriving DecidableEq, Repr

deriving instance DecidableEq for Except

/-- Mean of a 1-D tensor, `t.mean()`: sum divided by length. -/
def tmean {K : Type} [LinearOrderedField K] (l : List K) : K :=
  l.sum / (l.length : K)

/-- Elementwise binary torch operation on 1-D tensors with broadcasting:
sizes must be equal or one of them must be `1`. -/
def tbin {K : Type} [LinearOrderedField K] (f : K → K → K) (a b : List K) :
    Except PyErr (List K) :=
  if a.length = b.length then .ok (List.zipWith f a b)
  else if a.length = 1 then .ok (b.map (f (a.getD 0 0)))
  else if b.length = 1 then .ok (a.map (fun x => f x (b.getD 0 0)))
  else .error .runtimeShape

/-- In-place `dst.copy_(src)`: the destination keeps its shape, the source
must have the same size or be a singleton (broadcast). -/
def copyInto {K : Type} [LinearOrderedField K] (dst src : List K) :
    Except PyErr (List K) :=
  if src.length = dst.length then .ok src
  else if src.length = 1 then .ok (List.replicate dst.length (src.getD 0 0))
  else .error .runtimeShape

/-- In-place `dst.add_(alpha, src)` (`dst += alpha * src`): the destination
keeps its shape, the source must have the same size or be a singleton. -/
def addScaled {K : Type} [LinearOrderedField K] (dst : List K) (alpha : K)
    (src : List K) : Except PyErr (List K) :=
  if src.length = dst.length then
    .ok (List.zipWith (fun d s => d + alpha * s) dst src)
  else if src.length = 1 then .ok (dst.map (fun d => d + alpha * src.getD 0 0))
  else .error .runtimeShape

/-- Iteration scheme of `for target_x, x in zip(target_xs, xs)` updating each
`target_x` in place via `f`: the zip silently stops at the shorter list, so
unpaired entries of the target are left untouched and unpaired entries of the
live network are ignored. -/
def syncZip {K : Type} [LinearOrderedField K]
    (f : List K → List K → Except PyErr (List K)) :
    List (List K) → List (List K) → Except PyErr (List (List K))
  | [], _ => .ok []
  | t :: ts, [] => .ok (t :: ts)
  | t :: ts, s :: ss => do
    let t' ← f t s
    let ts' ← syncZip f ts ss
    .ok (t' :: ts')

/-- A parametric function (network) as seen by `nn.py`'s synchronization
routines: a list of parameter tensors and a list of buffer tensors
(each modelled as a flat list of exact scalars). -/
structure Net (K : Type) where
  params : List (List K)
  buffers : List (List K)
deriving DecidableEq, Repr

/-- `nn.py` lines 84-87, `copy_buffer(net, target_net)`: copy every zipped
buffer of `net` verbatim into the corresponding buffer of `target_net`.
Returns the updated buffer list of the target. -/
def copy_buffer {K : Type} [LinearOrderedField K] (net target_net : Net K) :
    Except PyErr (List (List K)) :=
  syncZip copyInto target_net.buffers net.buffers

/-- `nn.py` lines 89-93, `soft_update(net, target_net, tau)`: copy buffers,
then for each zipped parameter pair perform
`target_param.add_(1 - tau, param - target_param)`. -/
def soft_update {K : Type} [LinearOrderedField K] (net target_net : Net K)
    (tau : K) : Except PyErr (Net K) := do
  let bufs ← copy_buffer net target_net
  let ps ← syncZip (fun target_param param => do
    let d ← tbin (fun a b => a - b) param target_param
    addScaled target_param (1 - tau) d) target_net.params net.params
  .ok ⟨ps, bufs⟩

/-- `nn.py` lines 95-99, `hard_update(net, target_net)`: copy buffers, then
`target_param.copy_(param)` for each zipped parameter pair. -/
def hard_update {K : Type} [LinearOrderedField K] (net target_net : Net K) :
    Except PyErr (Net K) := do
  let bufs ← copy_buffer net target_net
  let ps ← syncZip copyInto target_net.params net.params
  .ok ⟨ps, bufs⟩

/-- Two lists of tensors have identical topology: same count, and the
corresponding tensors have the same size. -/
def sameShapes {K : Type} : List (List K) → List (List K) → Bool
  | [], [] => true
  | a :: as_, b :: bs => (a.length == b.length) && sameShapes as_ bs
  | _, _ => false

/-- Identical parameter/buffer topology of two networks (the contract of the
spec for `soft_update`/`hard_update`). -/
def matchingTopology {K : Type} (net target_net : Net K) : Prop :=
  sameShapes net.params target_net.params = true ∧
    sameShapes net.buffers target_net.buffers = true

instance {K : Type} (net target_net : Net K) :
    Decidable (matchingTopology net target_net) := by
  unfold matchingTopology; infer_instance

/-- Modelled from the spec: `BatchTraj` of `memory/memorytrajectory.py` is not
under `src/`.  Spec §3/§4.1: an ordered sequence of transitions, each
`(observation, action, reward, done)`, all component sequences sharing the
same time length.  One batch element (episode) is modelled; the critic's
arithmetic acts elementwise along the batch axis.  Observations have an
abstract type `α`; actions, rewards are scalars in `K`; `done` is a flag. -/
structure BatchTraj (α K : Type) where
  obs : List α
  actions : List K
  rewards : List K
  dones : List Bool

/-- Modelled from the spec: the shared time length of the trajectory
(spec §3: all transition sequences share the same `length`). -/
def BatchTraj.length {α K : Type} (t : BatchTraj α K) : Nat :=
  t.rewards.length

/-- Modelled from the spec (§4.1): `split_last()` returns
`(truncated_batch_without_last_step,
(last_observation, last_action, last_reward, last_done))` and fails when the
trajectory is empty. -/
def BatchTraj.splitlast {α K : Type} (t : BatchTraj α K) :
    Except PyErr (BatchTraj α K × (α × K × K × Bool)) :=
  match t.obs.getLast?, t.actions.getLast?, t.rewards.getLast?,
      t.dones.getLast? with
  | some o, some a, some r, some d =>
    .ok (⟨t.obs.dropLast, t.actions.dropLast, t.rewards.dropLast,
      t.dones.dropLast⟩, (o, a, r, d))
  | _, _, _, _ => .error .runtimeShape

/-- `critics/a2cvalue.py` lines 89-98, `A2CValueCritic.critic(traj, target)`.
The live/target value networks are abstracted as
`value : Bool → α → K` (the `target` flag selects the network, exactly as
`self._a2cvalue.value(lastobs, target=target)` does).  Source statements:
`length = traj.length`; `trunctraj, (lastobs, _, _, done) = traj.splitlast()`;
`discounts = gamma ** arange(length)`;
`discounted_rewards = trunctraj.rewards * discounts` (elementwise with
broadcasting — note `trunctraj.rewards` has `length - 1` entries);
`critic = discounted_rewards.sum(dim=1)`;
`critic += (1 - done) * gamma ** length * value(lastobs, target)`. -/
def A2CValueCritic.critic {α K : Type} [LinearOrderedField K] (gamma : K)
    (value : Bool → α → K) (target : Bool) (traj : BatchTraj α K) :
    Except PyErr K := do
  let length := traj.length
  let split ← traj.splitlast
  let trunctraj := split.1
  let lastobs := split.2.1
  let done := split.2.2.2.2
  let discounts := (List.range length).map (fun t => gamma ^ t)
  let discounted_rewards ← tbin (fun a b => a * b) trunctraj.rewards discounts
  let c := discounted_rewards.sum
  .ok (c + (1 - (if done then (1 : K) else 0)) * gamma ^ length *
    value target lastobs)

/-- Modelled from the spec (§4.3): the bootstrapped return the spec
prescribes, `sum_{t=0}^{L-1} gamma^t * reward_t +
(1 - done_L) * gamma^L * value(last_observation, use_target)` for a
trajectory of length `L`, failing on an empty trajectory. -/
def bootstrappedReturnSpec {α K : Type} [LinearOrderedField K] (gamma : K)
    (value : Bool → α → K) (target : Bool) (traj : BatchTraj α K) :
    Except PyErr K :=
  match traj.obs.getLast?, traj.dones.getLast? with
  | some o, some d =>
    .ok ((List.zipWith (fun r dc => r * dc) traj.rewards
        ((List.range traj.length).map (fun t => gamma ^ t))).sum +
      (1 - (if d then (1 : K) else 0)) * gamma ^ traj.length *
        value target o)
  | _, _ => .error .runtimeShape

/-- Attributes assigned on `self` by the constructors in
`critics/a2cvalue.py` (underscores dropped).  `CompoundStateful.__init__`
(`stateful.py`, not under `src/`) is modelled from the spec as contributing
no optimizer/`tau`/`dt` state: spec §4.3 lists the critic's state as exactly
the live and target value functions, `gamma` and `tau`, and spec §6 has each
component construct its own optimizer. -/
inductive ObjAttr where
  | referenceObs
  | a2cvalueChild
  | gammaAttr
  | deviceAttr
  | lrAttr
  | vFunction
  | targetVFunction
  | optimizerAttr
  | tauAttr
  | dtAttr
deriving DecidableEq, Repr

/-- Attributes set by `A2CValueCritic.__init__` (`a2cvalue.py` lines 71-75):
`_reference_obs`, `_a2cvalue`, `_gamma`, `_device`. -/
def a2cValueCriticAttrs : List ObjAttr :=
  [.referenceObs, .a2cvalueChild, .gammaAttr, .deviceAttr]

/-- Attributes set by `A2CValue.__init__` (`a2cvalue.py` lines 23-31):
`_lr`, `_v_function`, `_target_v_function`, `_optimizer`, `_device`. -/
def a2cValueAttrs : List ObjAttr :=
  [.lrAttr, .vFunction, .targetVFunction, .optimizerAttr, .deviceAttr]

/-- Operations performed by an optimization step, for tracing the control
flow of `A2CValueCritic.optimize`. -/
inductive CriticOp where
  /-- `self.critic(traj, target=True).detach()` (line 79). -/
  | criticTargetDetached
  /-- `self._a2cvalue.value(traj.obs[:,0], target=False)` (line 80). -/
  | liveValueAtInitialObs
  /-- `loss = ((v - critic) ** 2).mean()` (line 82). -/
  | mseLoss
  /-- `self._optimizer.zero_grad()` (line 84), reading attribute
  `_optimizer` on `self`. -/
  | zeroGradOnSelfOptimizer
  /-- `loss.backward(retain_graph=True)` (line 85). -/
  | backwardPass
  /-- `self._optimizer.step()` (line 86). -/
  | optimizerStepOnSelfOptimizer
  /-- a call to `soft_update(...)` — never issued by this method. -/
  | softUpdateTarget
  /-- `return loss` (line 87). -/
  | returnScalarLoss
deriving DecidableEq, Repr

/-- Straight-line control flow of `A2CValueCritic.optimize`
(`a2cvalue.py` lines 78-87), in source order. -/
def a2cValueCriticOptimizeOps : List CriticOp :=
  [.criticTargetDetached, .liveValueAtInitialObs, .mseLoss,
    .zeroGradOnSelfOptimizer, .backwardPass, .optimizerStepOnSelfOptimizer,
    .returnScalarLoss]

/-- `actors/ppo_actor.py` lines 13-35, module-level `loss(...)`.
The external distribution objects are abstracted by the tensors the source
extracts from them: `logp_action = distr.log_prob(actions)`,
the per-element entropy `distr.entropy()`, and — when `old_distr` is
supplied — the per-element `kl_divergence(old_distr, distr)` carried by
`kl_old_new` (`none` models `old_distr is None`).  Source statements:
`logr = logp_action - old_logp`;
`r_clipped = torch.where(critic_value.detach() > 0,
torch.clamp(logr, max=np.log(1 + eps_clamp)),
torch.clamp(logr, min=np.log(1 - eps_clamp))).exp()`;
`loss = - r_clipped * critic_value.detach()`;
`if c_entropy != 0.: loss -= c_entropy * distr.entropy()`;
`if c_kl != 0.: if old_distr is None: raise ValueError(...);
loss += c_kl * kl_divergence(old_distr, distr)`;
`return loss.mean()`.  (`.detach()` affects only the gradient graph, not
the computed value.) -/
noncomputable def ppo_loss (logp_action old_logp critic_value entropy :
    List ℝ) (c_entropy eps_clamp c_kl : ℝ) (kl_old_new : Option (List ℝ)) :
    Except PyErr ℝ :=
  tbin (fun a b => a - b) logp_action old_logp >>= fun logr =>
  tbin (fun lr cv =>
    Real.exp (if 0 < cv then min lr (Real.log (1 + eps_clamp))
      else max lr (Real.log (1 - eps_clamp)))) logr critic_value >>=
    fun r_clipped =>
  tbin (fun r cv => -(r * cv)) r_clipped critic_value >>= fun loss0 =>
  (if c_entropy ≠ 0 then
      tbin (fun l e => l - c_entropy * e) loss0 entropy
    else pure loss0) >>= fun loss1 =>
  (if c_kl ≠ 0 then
      match kl_old_new with
      | none => Except.error PyErr.valueErrorMissingOldDistr
      | some klv => tbin (fun l k => l + c_kl * k) loss1 klv
    else pure loss1) >>= fun loss2 =>
  .ok (tmean loss2)

/-- Log-density of a Gaussian, exactly torch's
`Normal(loc, scale).log_prob(value)`:
`-((value - loc) ** 2) / (2 * scale ** 2) - log(scale)
- log(sqrt(2 * pi))`.  (The torch of this repository's era does not
validate `scale > 0`, so no positivity check is modelled.) -/
noncomputable def normal_log_prob (mu sigma x : ℝ) : ℝ :=
  -((x - mu) ^ 2 / (2 * sigma ^ 2)) - Real.log sigma -
    Real.log (Real.sqrt (2 * Real.pi))

/-- Per-item mixture-component log-probabilities of `gmm_loss`
(`nn.py` lines 33-36): for each component `k`,
`logpi_k + sum_features Normal(mu_k, sigma_k).log_prob(x)`.
The feature dimensions must agree (torch broadcast of
`batch.unsqueeze(-2)` against `(gs, fs)` tensors). -/
noncomputable def componentLogProbs (x : List ℝ) :
    List (List ℝ) → List (List ℝ) → List ℝ → Except PyErr (List ℝ)
  | [], [], [] => .ok []
  | mu :: ms, s :: ss, lp :: lps =>
    if mu.length = x.length ∧ s.length = x.length then do
      let rest ← componentLogProbs x ms ss lps
      .ok ((lp + (List.zipWith (fun p xv => normal_log_prob p.1 p.2 xv)
        (mu.zip s) x).sum) :: rest)
    else .error .runtimeShape
  | _, _, _ => .error .runtimeShape

/-- One batch item of `gmm_loss` (`nn.py` lines 33-48); all the tensor
operations of the source act independently per batch item.  Source
statements: `g_log_probs = logpi + torch.sum(g_log_probs, dim=-1)`;
`max_log_probs = torch.max(g_log_probs, dim=-1, keepdim=True)[0]`
(fails on an empty component dimension);
`g_log_probs = g_log_probs - max_log_probs`;
`g_probs = torch.exp(g_log_probs)`;
with a correction factor: `mask = (g_probs[..., 0] == 1).float()` and
`g_probs = torch.stack([mask * g_probs[..., 0] * correction_factor
+ (1 - mask) * g_probs[..., 0], g_probs[..., 1]], dim=1)` (indexing
`[..., 1]` fails when there are fewer than two components);
`probs = torch.sum(g_probs, dim=-1)`;
`log_prob = max_log_probs.squeeze() + torch.log(probs)`.
Returns this item's `log_prob`. -/
noncomputable def gmm_item (x : List ℝ) (mus sigmas : List (List ℝ))
    (logpi : List ℝ) (correction_factor : Option ℝ) : Except PyErr ℝ := do
  let v ← componentLogProbs x mus sigmas logpi
  match v with
  | [] => .error .emptyMax
  | v0 :: vrest =>
    let max_log_probs := vrest.foldl max v0
    let g_probs := (v0 :: vrest).map (fun a => Real.exp (a - max_log_probs))
    let g2 ← match correction_factor with
      | none => pure g_probs
      | some cf =>
        match g_probs with
        | p0 :: p1 :: _ =>
          pure [if p0 = 1 then p0 * cf else p0, p1]
        | _ => Except.error PyErr.indexError
    .ok (max_log_probs + Real.log g2.sum)

/-- Batch iteration of `gmm_loss`: the parallel batch dimensions of
`batch`, `mus`, `sigmas` and `logpi` must agree; each item is processed by
`gmm_item`. -/
noncomputable def gmm_items : List (List ℝ) → List (List (List ℝ)) →
    List (List (List ℝ)) → List (List ℝ) → Option ℝ →
    Except PyErr (List ℝ)
  | [], [], [], [], _ => .ok []
  | x :: xs, m :: ms, s :: ss, p :: ps, cf => do
    let h ← gmm_item x m s p cf
    let t ← gmm_items xs ms ss ps cf
    .ok (h :: t)
  | _, _, _, _, _ => .error .runtimeShape

/-- `nn.py` lines 9-51, `gmm_loss(batch, mus, sigmas, logpi,
correction_factor, reduce)`: negative log-likelihood of each batch item
under the Gaussian mixture.  With `reduce = true` the source returns the
0-D tensor `- torch.mean(log_prob)` (modelled as a one-element list), with
`reduce = false` the per-item tensor `- log_prob`. -/
noncomputable def gmm_loss (batch : List (List ℝ))
    (mus sigmas : List (List (List ℝ))) (logpi : List (List ℝ))
    (correction_factor : Option ℝ) (reduce : Bool) :
    Except PyErr (List ℝ) := do
  let log_prob ← gmm_items batch mus sigmas logpi correction_factor
  if reduce then .ok [-(tmean log_prob)]
  else .ok (log_prob.map (fun a => -a))

/-- Elementwise binary operation on 1-D value tensors with torch
broadcasting, total variant used by the (shape-correct by construction)
actor losses; the incompatible-shape case is unreachable in their use and
collapsed to `[]`. -/
def bbin (f : ℝ → ℝ → ℝ) (a b : List ℝ) : List ℝ :=
  if a.length = b.length then List.zipWith f a b
  else if a.length = 1 then b.map (f (a.getD 0 0))
  else if b.length = 1 then a.map (fun x => f x (b.getD 0 0))
  else []

/-- A tensor in the autograd graph, tracking along with its value whether
back-propagation from it reaches the caller-supplied advantage
(`critic_value`) input.  `detach()` keeps the value and cuts the graph;
every arithmetic operation propagates reachability from its operands.
This models spec §9's "treat as constant" contract for `.detach()`. -/
structure TT where
  val : List ℝ
  advGrad : Bool

/-- `t.detach()`: same value, gradient graph cut. -/
def TT.detach (t : TT) : TT := ⟨t.val, false⟩

/-- Elementwise negation of a graph tensor. -/
def TT.negT (t : TT) : TT := ⟨t.val.map (fun x => -x), t.advGrad⟩

/-- Elementwise binary operation on graph tensors (broadcasting). -/
def TT.binop (f : ℝ → ℝ → ℝ) (a b : TT) : TT :=
  ⟨bbin f a.val b.val, a.advGrad || b.advGrad⟩

/-- `t.mean()` on a graph tensor: a 0-D (one-element) tensor. -/
noncomputable def TT.meanT (t : TT) : TT := ⟨[tmean t.val], t.advGrad⟩

/-- Multiplication of a graph tensor by a python float constant. -/
def TT.smul (c : ℝ) (t : TT) : TT := ⟨t.val.map (fun x => c * x), t.advGrad⟩

/-- `actors/a2cactor.py` lines 100-111, the loss whose gradient step
`A2CActorContinuous.optimize` takes (the value passed to `.backward()` is
`loss.mean()`).  `logp_action` stands for
`Normal(*policy_function(traj.obs)).log_prob(action).sum(dim=-1)` and
`entropy` for `distr.entropy().sum(dim=-1)` — both computed from the policy
network alone, hence not gradient-reachable from the advantage; the
caller-supplied `critic_value` is a graph tensor.  Source statements:
`loss_critic = (- logp_action * critic_value.detach()).mean()`;
`loss = loss_critic - self._c_entropy * entropy`; `loss.mean()`. -/
noncomputable def a2c_continuous_loss (logp_action entropy : List ℝ) (critic_value : TT)
    (c_entropy : ℝ) : TT :=
  let lp : TT := ⟨logp_action, false⟩
  let ent : TT := ⟨entropy, false⟩
  let loss_critic := TT.meanT (TT.binop (fun a b => a * b) (TT.negT lp)
    (TT.detach critic_value))
  TT.meanT (TT.binop (fun a b => a - b) loss_critic (TT.smul c_entropy ent))

/-- `actors/a2cactor.py` lines 137-149, the loss whose gradient step
`A2CActorDiscrete.optimize` takes (the value passed to `.backward()` is
`loss.mean()`).  `logp_actions` stands for
`Categorical(logits=policy_function(traj.obs)).log_prob(actions)` and
`entropy` for `distr.entropy()`.  Source statements:
`loss = - logp_actions * critic_value.detach() - self._c_entropy * entropy`;
`loss.mean()`. -/
noncomputable def a2c_discrete_loss (logp_actions entropy : List ℝ) (critic_value : TT)
    (c_entropy : ℝ) : TT :=
  TT.meanT (TT.binop (fun a b => a - b)
    (TT.binop (fun a b => a * b) (TT.negT ⟨logp_actions, false⟩)
      (TT.detach critic_value))
    (TT.smul c_entropy ⟨entropy, false⟩))

/-! Helper lemmas. -/

lemma except_bind_ok {ε α β : Type} (a : α) (f : α → Except ε β) :
    (Except.ok a >>= f : Except ε β) = f a := rfl

lemma except_bind_err {ε α β : Type} (e : ε) (f : α → Except ε β) :
    (Except.error e >>= f : Except ε β) = Except.error e := rfl

lemma except_map_ok {ε α β : Type} (a : α) (f : α → β) :
    (Except.ok a : Except ε α).map f = Except.ok (f a) := rfl

lemma except_map_err {ε α β : Type} (e : ε) (f : α → β) :
    (Except.error e : Except ε α).map f = Except.error e := rfl

lemma syncZip_eq {K : Type} [LinearOrderedField K]
    (f : List K → List K → Except PyErr (List K))
    (g : List K → List K → List K) :
    ∀ ts ss : List (List K),
      (∀ t s, (t, s) ∈ ts.zip ss → f t s = .ok (g t s)) →
      syncZip f ts ss = .ok (List.zipWith g ts ss ++ ts.drop ss.length) := by
  intro ts
  induction ts with
  | nil => intro ss _; simp [syncZip]
  | cons t ts ih =>
    intro ss h
    cases ss with
    | nil => simp [syncZip]
    | cons s ss =>
      have ht : f t s = .ok (g t s) := h t s (by simp [List.zip_cons_cons])
      have hrest : ∀ t' s', (t', s') ∈ ts.zip ss → f t' s' = .ok (g t' s') := by
        intro t' s' hm
        exact h t' s' (by simp [List.zip_cons_cons, hm])
      show (f t s >>= fun t' => syncZip f ts ss >>= fun ts' =>
        .ok (t' :: ts')) = _
      rw [ht, except_bind_ok, ih ss hrest, except_bind_ok]
      simp [List.zip_cons_cons]

lemma sameShapes_symm {K : Type} :
    ∀ as_ bs : List (List K), sameShapes as_ bs = true →
      sameShapes bs as_ = true := by
  intro as_
  induction as_ with
  | nil => intro bs h; cases bs <;> simp_all [sameShapes]
  | cons a as_ ih =>
    intro bs h
    cases bs with
    | nil => simp_all [sameShapes]
    | cons b bs =>
      simp only [sameShapes, Bool.and_eq_true, beq_iff_eq] at h ⊢
      exact ⟨by omega, ih bs h.2⟩

lemma sameShapes_spec {K : Type} :
    ∀ as_ bs : List (List K), sameShapes as_ bs = true →
      as_.length = bs.length ∧
        ∀ p q, (p, q) ∈ as_.zip bs → p.length = q.length := by
  intro as_
  induction as_ with
  | nil => intro bs h; cases bs <;> simp_all [sameShapes]
  | cons a as_ ih =>
    intro bs h
    cases bs with
    | nil => simp_all [sameShapes]
    | cons b bs =>
      simp only [sameShapes, Bool.and_eq_true, beq_iff_eq] at h
      obtain ⟨hl, hrest⟩ := ih bs h.2
      refine ⟨by simpa using hl, ?_⟩
      intro p q hm
      rcases (by simpa [List.zip_cons_cons] using hm) with h1 | h2
      · rw [h1.1, h1.2]; exact h.1
      · exact hrest p q h2

lemma zipWith_const_right {K : Type} :
    ∀ as_ bs : List K, as_.length = bs.length →
      List.zipWith (fun _ s => s) as_ bs = bs := by
  intro as_
  induction as_ with
  | nil => intro bs h; cases bs <;> simp_all
  | cons a as_ ih =>
    intro bs h
    cases bs with
    | nil => simp_all
    | cons b bs => simpa using ih bs (by simpa using h)

lemma zipWith_blend {K : Type} [LinearOrderedField K] (tau : K) :
    ∀ tp p : List K,
      List.zipWith (fun d s => d + (1 - tau) * s) tp
        (List.zipWith (fun a b => a - b) p tp) =
      List.zipWith (fun t x => tau * t + (1 - tau) * x) tp p := by
  intro tp
  induction tp with
  | nil => intro p; simp
  | cons t tp ih =>
    intro p
    cases p with
    | nil => simp
    | cons x p =>
      simp only [List.zipWith_cons_cons, ih]
      congr 1
      ring

lemma blend_pair {K : Type} [LinearOrderedField K] (tau : K)
    (tp p : List K) (h : tp.length = p.length) :
    (do
      let d ← tbin (fun a b => a - b) p tp
      addScaled tp (1 - tau) d : Except PyErr (List K)) =
    .ok (List.zipWith (fun t x => tau * t + (1 - tau) * x) tp p) := by
  have h1 : tbin (fun a b => a - b) p tp =
      .ok (List.zipWith (fun a b => a - b) p tp) := by
    simp [tbin, h.symm]
  rw [h1, except_bind_ok]
  have hlen : (List.zipWith (fun a b => a - b) p tp).length = tp.length := by
    simp [h]
  simp only [addScaled, hlen, if_pos rfl]
  rw [zipWith_blend]
  simp

lemma copyInto_eq {K : Type} [LinearOrderedField K] (dst src : List K)
    (h : src.length = dst.length) : copyInto dst src = .ok src := by
  simp [copyInto, h]

lemma copy_buffer_eq {K : Type} [LinearOrderedField K]
    (net target_net : Net K)
    (hb : ∀ p q, (p, q) ∈ target_net.buffers.zip net.buffers →
      p.length = q.length) :
    copy_buffer net target_net =
      .ok (List.zipWith (fun _ s => s) target_net.buffers net.buffers ++
        target_net.buffers.drop net.buffers.length) := by
  unfold copy_buffer
  exact syncZip_eq copyInto (fun _ s => s) _ _
    (fun t s hm => copyInto_eq t s (hb t s hm).symm)

lemma soft_update_eq {K : Type} [LinearOrderedField K]
    (net target_net : Net K) (tau : K)
    (hp : ∀ p q, (p, q) ∈ target_net.params.zip net.params →
      p.length = q.length)
    (hb : ∀ p q, (p, q) ∈ target_net.buffers.zip net.buffers →
      p.length = q.length) :
    soft_update net target_net tau =
      .ok ⟨List.zipWith
          (fun tp p => List.zipWith (fun t x => tau * t + (1 - tau) * x) tp p)
          target_net.params net.params ++
          target_net.params.drop net.params.length,
        List.zipWith (fun _ s => s) target_net.buffers net.buffers ++
          target_net.buffers.drop net.buffers.length⟩ := by
  unfold soft_update
  rw [copy_buffer_eq net target_net hb, except_bind_ok]
  rw [syncZip_eq _
    (fun tp p => List.zipWith (fun t x => tau * t + (1 - tau) * x) tp p) _ _
    (fun t s hm => blend_pair tau t s (hp t s hm))]
  rfl

lemma hard_update_eq {K : Type} [LinearOrderedField K]
    (net target_net : Net K)
    (hp : ∀ p q, (p, q) ∈ target_net.params.zip net.params →
      p.length = q.length)
    (hb : ∀ p q, (p, q) ∈ target_net.buffers.zip net.buffers →
      p.length = q.length) :
    hard_update net target_net =
      .ok ⟨List.zipWith (fun _ s => s) target_net.params net.params ++
          target_net.params.drop net.params.length,
        List.zipWith (fun _ s => s) target_net.buffers net.buffers ++
          target_net.buffers.drop net.buffers.length⟩ := by
  unfold hard_update
  rw [copy_buffer_eq net target_net hb, except_bind_ok]
  rw [syncZip_eq _ (fun _ s => s) _ _
    (fun t s hm => copyInto_eq t s (hp t s hm).symm)]
  rfl

/-! Claim theorems. -/

/-- C4: for every live/target pair with matching topology and every `tau`,
`soft_update` sets each target parameter elementwise to
`tau * target_param + (1 - tau) * live_param` (`tau` is the retention
weight of the target), and copies every buffer verbatim from live to
target without blending. -/
theorem C4_soft_update_blends_params_copies_buffers {K : Type}
    [LinearOrderedField K] (net target_net : Net K) (tau : K)
    (h : matchingTopology net target_net) :
    soft_update net target_net tau =
      .ok ⟨List.zipWith
          (fun tp p => List.zipWith (fun t x => tau * t + (1 - tau) * x) tp p)
          target_net.params net.params,
        net.buffers⟩ := by
  obtain ⟨hps, hbs⟩ := h
  obtain ⟨hplen, hppair⟩ := sameShapes_spec _ _ (sameShapes_symm _ _ hps)
  obtain ⟨hblen, hbpair⟩ := sameShapes_spec _ _ (sameShapes_symm _ _ hbs)
  rw [soft_update_eq net target_net tau
    (fun p q hm => hppair p q hm) (fun p q hm => hbpair p q hm)]
  rw [List.drop_eq_nil_of_le (by omega), List.drop_eq_nil_of_le (by omega)]
  rw [zipWith_const_right _ _ hblen]
  simp

/-- Witness for C4 at a concrete matching pair over `ℚ` with `tau = 1/2`. -/
theorem C4_soft_update_blends_params_copies_buffers_witness :
    matchingTopology (⟨[[1, 2]], [[7]]⟩ : Net ℚ) ⟨[[3, 4]], [[9]]⟩ ∧
      soft_update (⟨[[1, 2]], [[7]]⟩ : Net ℚ) ⟨[[3, 4]], [[9]]⟩ (1 / 2) =
        .ok ⟨[[2, 3]], [[7]]⟩ := by
  constructor
  · decide
  · rw [C4_soft_update_blends_params_copies_buffers _ _ _ (by decide)]
    norm_num [List.zipWith_cons_cons]

/-- C9 counterexample: a live/target pair whose parameter counts differ
(mismatched topology).  Both `soft_update` and `hard_update` complete
without any error, silently truncating the synchronization: only the first
target parameter is updated and the unpaired target parameter `[3]` is left
untouched.  This refutes the claim that a topology mismatch makes the
updates fail. -/
theorem C9_mismatched_topology_completes_counterexample :
    ¬ matchingTopology (⟨[[1]], []⟩ : Net ℚ) ⟨[[2], [3]], []⟩ ∧
      soft_update (⟨[[1]], []⟩ : Net ℚ) ⟨[[2], [3]], []⟩ (1 / 2) =
        .ok ⟨[[3 / 2], [3]], []⟩ ∧
      hard_update (⟨[[1]], []⟩ : Net ℚ) ⟨[[2], [3]], []⟩ =
        .ok ⟨[[1], [3]], []⟩ := by
  have hm : ∀ p q : List ℚ,
      (p, q) ∈ ([[2], [3]] : List (List ℚ)).zip [[1]] →
      p.length = q.length := by
    intro p q hmm
    simp only [List.zip_cons_cons, List.zip_nil_right, List.mem_singleton,
      Prod.mk.injEq] at hmm
    obtain ⟨rfl, rfl⟩ := hmm
    rfl
  have hb : ∀ p q : List ℚ, (p, q) ∈ ([] : List (List ℚ)).zip [] →
      p.length = q.length := by
    intro p q hmm
    simp at hmm
  refine ⟨by decide, ?_, ?_⟩
  · rw [soft_update_eq (⟨[[1]], []⟩ : Net ℚ) ⟨[[2], [3]], []⟩ (1 / 2) hm hb]
    norm_num [List.zipWith_cons_cons]
  · rw [hard_update_eq (⟨[[1]], []⟩ : Net ℚ) ⟨[[2], [3]], []⟩ hm hb]
    norm_num [List.zipWith_cons_cons]

/-- C9 (amended): neither `soft_update` nor `hard_update` performs any
topology check.  Whenever the zipped prefixes of the parameter and buffer
lists are elementwise size-compatible, both updates complete without error
even if the parameter or buffer counts differ: `zip` silently truncates to
the common prefix, which is updated, while every unpaired target parameter
and buffer is left untouched. -/
theorem C9_sync_truncates_silently {K : Type} [LinearOrderedField K]
    (net target_net : Net K) (tau : K)
    (hp : ∀ p q, (p, q) ∈ target_net.params.zip net.params →
      p.length = q.length)
    (hb : ∀ p q, (p, q) ∈ target_net.buffers.zip net.buffers →
      p.length = q.length) :
    soft_update net target_net tau =
      .ok ⟨List.zipWith
          (fun tp p => List.zipWith (fun t x => tau * t + (1 - tau) * x) tp p)
          target_net.params net.params ++
          target_net.params.drop net.params.length,
        List.zipWith (fun _ s => s) target_net.buffers net.buffers ++
          target_net.buffers.drop net.buffers.length⟩ ∧
    hard_update net target_net =
      .ok ⟨List.zipWith (fun _ s => s) target_net.params net.params ++
          target_net.params.drop net.params.length,
        List.zipWith (fun _ s => s) target_net.buffers net.buffers ++
          target_net.buffers.drop net.buffers.length⟩ :=
  ⟨soft_update_eq net target_net tau hp hb,
    hard_update_eq net target_net hp hb⟩

/-- Witness for the amended C9 at a concrete mismatched pair over `ℚ`. -/
theorem C9_sync_truncates_silently_witness :
    soft_update (⟨[[2]], [[5]]⟩ : Net ℚ) ⟨[[4], [7], [9]], [[0], [1]]⟩
        (1 / 3) = .ok ⟨[[8 / 3], [7], [9]], [[5], [1]]⟩ ∧
      hard_update (⟨[[2]], [[5]]⟩ : Net ℚ) ⟨[[4], [7], [9]], [[0], [1]]⟩ =
        .ok ⟨[[2], [7], [9]], [[5], [1]]⟩ := by
  have h := C9_sync_truncates_silently (⟨[[2]], [[5]]⟩ : Net ℚ)
    ⟨[[4], [7], [9]], [[0], [1]]⟩ (1 / 3)
    (by
      intro p q hm
      simp only [List.zip_cons_cons, List.zip_nil_right, List.mem_singleton,
        Prod.mk.injEq] at hm
      obtain ⟨rfl, rfl⟩ := hm
      rfl)
    (by
      intro p q hm
      simp only [List.zip_cons_cons, List.zip_nil_right, List.mem_singleton,
        Prod.mk.injEq] at hm
      obtain ⟨rfl, rfl⟩ := hm
      rfl)
  refine ⟨?_, ?_⟩
  · rw [h.1]; norm_num [List.zipWith_cons_cons]
  · rw [h.2]; norm_num [List.zipWith_cons_cons]

lemma splitlast_done {α K : Type} (t : BatchTraj α K)
    (tt : BatchTraj α K) (o : α) (a r : K) (d : Bool)
    (h : t.splitlast = .ok (tt, (o, a, r, d))) :
    t.dones.getLast? = some d := by
  unfold BatchTraj.splitlast at h
  split at h
  · rename_i o' a' r' d' ho ha hr hd
    obtain ⟨h1, h2⟩ := by simpa using h
    rw [hd, h2.2.2.2]
  · simp at h

/-- C5: for every trajectory whose final transition has `done = true`, the
bootstrapped return computed by `A2CValueCritic.critic` is independent of
the value function (and of the live/target selection) — the bootstrap term
is exactly `0` — and the result equals the discounted reward sum term
alone. -/
theorem C5_terminal_zeroes_bootstrap {α K : Type} [LinearOrderedField K]
    (gamma : K) (traj : BatchTraj α K) (v1 v2 : Bool → α → K)
    (t1 t2 : Bool) (h : traj.dones.getLast? = some true) :
    A2CValueCritic.critic gamma v1 t1 traj =
      A2CValueCritic.critic gamma v2 t2 traj ∧
    A2CValueCritic.critic gamma v1 t1 traj =
      (traj.splitlast >>= fun split =>
        (tbin (fun a b => a * b) split.1.rewards
          ((List.range traj.length).map (fun t => gamma ^ t))).map
            (fun dr => dr.sum)) := by
  rcases hs : traj.splitlast with e | ⟨tt, o, a, r, d⟩
  · unfold A2CValueCritic.critic
    rw [hs]
    exact ⟨rfl, rfl⟩
  · have hd : d = true := by
      have := splitlast_done traj tt o a r d hs
      rw [h] at this
      simpa using this.symm
    unfold A2CValueCritic.critic
    rw [hs]
    subst hd
    rcases ht : tbin (fun a b => a * b) tt.rewards
        ((List.range traj.length).map (fun t => gamma ^ t)) with e | dr
    · constructor <;>
        simp only [except_bind_ok, ht, except_bind_err, except_map_err]
    · constructor <;>
        · simp only [except_bind_ok, ht, except_map_ok]
          simp

/-- Witness for C5: a concrete length-2 trajectory over `ℚ` ending in
`done = true`; the critic's output does not depend on the value function
(here `100` versus `5`) nor on the live/target selection. -/
theorem C5_terminal_zeroes_bootstrap_witness :
    (⟨[(), ()], [0, 0], [3, 7], [false, true]⟩ :
        BatchTraj Unit ℚ).dones.getLast? = some true ∧
      A2CValueCritic.critic (1 / 2 : ℚ) (fun _ _ => 100) false
          ⟨[(), ()], [0, 0], [3, 7], [false, true]⟩ =
        A2CValueCritic.critic (1 / 2 : ℚ) (fun _ _ => 5) true
          ⟨[(), ()], [0, 0], [3, 7], [false, true]⟩ :=
  ⟨rfl, (C5_terminal_zeroes_bootstrap (1 / 2 : ℚ)
    ⟨[(), ()], [0, 0], [3, 7], [false, true]⟩
    (fun _ _ => 100) (fun _ _ => 5) false true rfl).1⟩

/-- Length-3 all-alive trajectory with unit rewards, exhibiting the
discount/shape defect of `A2CValueCritic.critic`. -/
def trajL3 : BatchTraj Unit ℚ :=
  ⟨[(), (), ()], [0, 0, 0], [1, 1, 1], [false, false, false]⟩

/-- Length-2 all-alive trajectory with rewards `[1, 2]`, exhibiting the
dropped-last-reward defect of `A2CValueCritic.critic`. -/
def trajL2 : BatchTraj Unit ℚ :=
  ⟨[(), ()], [0, 0], [1, 2], [false, false]⟩

/-- C1 fails on the code: `A2CValueCritic.critic` builds a discount vector
of the full length `L` but multiplies it elementwise with the `L - 1`
truncated rewards returned by `splitlast` (the last reward is discarded).
For `L = 3` this is a shape mismatch and the computation errors instead of
producing `sum_t gamma^t r_t + (1 - done) gamma^L v`; for `L = 2`
broadcasting hides the mismatch but the result (`11/4`) disagrees with the
spec's bootstrapped return (`13/4`, computed by `bootstrappedReturnSpec`)
because reward `r_1 = 2` is dropped and `r_0 = 1` is counted under two
discounts. -/
theorem C1_critic_discount_shape_defect :
    A2CValueCritic.critic (1 / 2 : ℚ) (fun _ _ => 5) false trajL3 =
      .error .runtimeShape ∧
    bootstrappedReturnSpec (1 / 2 : ℚ) (fun _ _ => 5) false trajL3 =
      .ok (19 / 8) ∧
    A2CValueCritic.critic (1 / 2 : ℚ) (fun _ _ => 5) false trajL2 =
      .ok (11 / 4) ∧
    bootstrappedReturnSpec (1 / 2 : ℚ) (fun _ _ => 5) false trajL2 =
      .ok (13 / 4) ∧
    (11 / 4 : ℚ) ≠ 13 / 4 := by
  refine ⟨rfl, ?_, ?_, ?_, by norm_num⟩
  · have hs : bootstrappedReturnSpec (1 / 2 : ℚ) (fun _ _ => 5) false trajL3
        = .ok ((1 * (1 / 2 : ℚ) ^ 0 + (1 * (1 / 2 : ℚ) ^ 1 +
          (1 * (1 / 2 : ℚ) ^ 2 + 0))) +
          (1 - 0) * (1 / 2 : ℚ) ^ 3 * 5) := rfl
    rw [hs]
    norm_num
  · have hs : A2CValueCritic.critic (1 / 2 : ℚ) (fun _ _ => 5) false trajL2
        = .ok ((1 * (1 / 2 : ℚ) ^ 0 + (1 * (1 / 2 : ℚ) ^ 1 + 0)) +
          (1 - 0) * (1 / 2 : ℚ) ^ 2 * 5) := rfl
    rw [hs]
    norm_num
  · have hs : bootstrappedReturnSpec (1 / 2 : ℚ) (fun _ _ => 5) false trajL2
        = .ok ((1 * (1 / 2 : ℚ) ^ 0 + (2 * (1 / 2 : ℚ) ^ 1 + 0)) +
          (1 - 0) * (1 / 2 : ℚ) ^ 2 * 5) := rfl
    rw [hs]
    norm_num

/-- C2 fails on the code: `A2CValueCritic.optimize` (lines 78-87) never
calls `soft_update` — no target-network update happens in the critic's
optimization step — and it addresses `self._optimizer`, an attribute that
`A2CValueCritic.__init__` never creates (the optimizer lives on the inner
`A2CValue` object), so the step raises `AttributeError` before the
optimizer step.  Moreover the inner `A2CValue.optimize`, the only method
that does call `soft_update`, reads `self._tau`, which `A2CValue.__init__`
never assigns either. -/
theorem C2_optimize_never_soft_updates :
    CriticOp.softUpdateTarget ∉ a2cValueCriticOptimizeOps ∧
      ObjAttr.optimizerAttr ∉ a2cValueCriticAttrs ∧
      ObjAttr.tauAttr ∉ a2cValueAttrs := by
  decide

lemma except_pure_bind {ε α β : Type} (a : α) (f : α → Except ε β) :
    ((pure a : Except ε α) >>= f) = f a := rfl

lemma tbin_eq_len {K : Type} [LinearOrderedField K] (f : K → K → K)
    (a b : List K) (h : a.length = b.length) :
    tbin f a b = .ok (List.zipWith f a b) := by
  simp [tbin, h]

lemma zipWith_chain {α : Type} (f : α → α → α) (g : α → α → α) :
    ∀ a b : List α,
      List.zipWith f (List.zipWith g a b) b =
        List.zipWith (fun x y => f (g x y) y) a b := by
  intro a
  induction a with
  | nil => intro b; simp
  | cons x a ih =>
    intro b
    cases b with
    | nil => simp
    | cons y b => simp [ih]

lemma zipWith_neg_comp (g : ℝ → ℝ → ℝ) :
    ∀ a b : List ℝ,
      List.zipWith (fun x y => -(g x y)) a b =
        (List.zipWith g a b).map (fun z => -z) := by
  intro a
  induction a with
  | nil => intro b; simp
  | cons x a ih =>
    intro b
    cases b with
    | nil => simp
    | cons y b => simp [ih]

lemma sum_map_negate {K : Type} [LinearOrderedField K] :
    ∀ l : List K, (l.map (fun z => -z)).sum = -l.sum := by
  intro l
  induction l with
  | nil => simp
  | cons x l ih => simp [ih]; ring

lemma tmean_map_negate {K : Type} [LinearOrderedField K] (l : List K) :
    tmean (l.map (fun z => -z)) = -(tmean l) := by
  unfold tmean
  rw [sum_map_negate, List.length_map, neg_div]

lemma sum_zip_add_smul {K : Type} [LinearOrderedField K] (c : K) :
    ∀ a b : List K, a.length = b.length →
      (List.zipWith (fun l k => l + c * k) a b).sum = a.sum + c * b.sum := by
  intro a
  induction a with
  | nil =>
    intro b h
    have hb : b = [] := List.length_eq_zero.mp h.symm
    subst hb
    simp
  | cons x a ih =>
    intro b h
    cases b with
    | nil => simp at h
    | cons y b =>
      simp only [List.zipWith_cons_cons, List.sum_cons]
      rw [ih b (by simpa using h)]
      ring

lemma tmean_zip_add_smul {K : Type} [LinearOrderedField K] (c : K)
    (a b : List K) (h : a.length = b.length) :
    tmean (List.zipWith (fun l k => l + c * k) a b) =
      tmean a + c * tmean b := by
  unfold tmean
  rw [sum_zip_add_smul c a b h, List.length_zipWith, h, min_self, ← h,
    add_div, mul_div_assoc]

lemma clip_unit_list (eps : ℝ) (heps : 0 < eps) :
    ∀ lp cv : List ℝ, cv.length = lp.length → (∀ x ∈ cv, 0 < x) →
      List.zipWith (fun lr c =>
          Real.exp (if 0 < c then min lr (Real.log (1 + eps))
            else max lr (Real.log (1 - eps))) * c)
        (List.zipWith (fun a b => a - b) lp lp) cv = cv := by
  intro lp
  induction lp with
  | nil =>
    intro cv h _
    have hcv : cv = [] := List.length_eq_zero.mp h
    simp [hcv]
  | cons x lp ih =>
    intro cv h hpos
    cases cv with
    | nil => simp
    | cons c cv =>
      simp only [List.zipWith_cons_cons]
      have hc : 0 < c := hpos c (by simp)
      have hlog : 0 < Real.log (1 + eps) := Real.log_pos (by linarith)
      rw [ih cv (by simpa using h) (fun y hy => hpos y (by simp [hy]))]
      simp [sub_self, if_pos hc, min_eq_left hlog.le, Real.exp_zero]

/-- C3: with `c_entropy = 0` and `c_kl = 0`, the PPO loss clips the
log-ratio `log_prob(actions) - old_log_prob` from above at
`log(1 + eps_clamp)` where the advantage is positive and from below at
`log(1 - eps_clamp)` where it is nonpositive, and equals
`-mean(exp(clipped_log_ratio) * advantage)`; consequently, for a positive
advantage, `old_log_prob = log_prob(actions)` and `eps_clamp > 0`, it
equals `-mean(advantage)` exactly. -/
theorem C3_ppo_clipped_surrogate (logp_action old_logp critic_value
    entropy : List ℝ) (eps_clamp : ℝ) (kl_old_new : Option (List ℝ))
    (hlo : old_logp.length = logp_action.length)
    (hlc : critic_value.length = logp_action.length) :
    ppo_loss logp_action old_logp critic_value entropy 0 eps_clamp 0
        kl_old_new =
      .ok (-(tmean (List.zipWith (fun lr c =>
          Real.exp (if 0 < c then min lr (Real.log (1 + eps_clamp))
            else max lr (Real.log (1 - eps_clamp))) * c)
        (List.zipWith (fun a b => a - b) logp_action old_logp)
        critic_value))) ∧
    (old_logp = logp_action → (∀ x ∈ critic_value, 0 < x) →
      0 < eps_clamp →
      ppo_loss logp_action old_logp critic_value entropy 0 eps_clamp 0
          kl_old_new = .ok (-(tmean critic_value))) := by
  have hmain : ppo_loss logp_action old_logp critic_value entropy 0
      eps_clamp 0 kl_old_new =
      .ok (-(tmean (List.zipWith (fun lr c =>
        Real.exp (if 0 < c then min lr (Real.log (1 + eps_clamp))
          else max lr (Real.log (1 - eps_clamp))) * c)
      (List.zipWith (fun a b => a - b) logp_action old_logp)
      critic_value))) := by
    unfold ppo_loss
    rw [tbin_eq_len _ _ _ hlo.symm, except_bind_ok]
    rw [tbin_eq_len _ _ _ (by simp [hlo, hlc]), except_bind_ok]
    rw [tbin_eq_len _ _ _ (by simp [hlo, hlc]), except_bind_ok]
    simp only [ne_eq, not_true_eq_false, if_false, except_pure_bind]
    rw [zipWith_chain, zipWith_neg_comp, tmean_map_negate]
  refine ⟨hmain, fun hold hpos heps => ?_⟩
  rw [hmain, hold, clip_unit_list eps_clamp heps logp_action critic_value
    hlc hpos]

/-- Witness for C3 at `logp = old_logp = [1]`, advantage `[2]`,
`eps_clamp = 1`: the loss is exactly `-2`. -/
theorem C3_ppo_clipped_surrogate_witness :
    ppo_loss [1] [1] [2] [] 0 1 0 none = .ok (-2) := by
  have h := (C3_ppo_clipped_surrogate [1] [1] [2] [] 1 none rfl rfl).2
    rfl (by intro x hx; simp at hx; simp [hx]) one_pos
  rw [h]
  norm_num [tmean]

/-- C6: the PPO loss raises the missing-argument error exactly when the KL
coefficient is nonzero and no old distribution (hence no KL tensor) is
supplied; with `c_kl = 0` it never errors regardless of the old
distribution; and with the old distribution supplied the KL penalty adds
exactly `c_kl * mean(KL(old, new))` to the loss. -/
theorem C6_kl_requires_old_distr (logp_action old_logp critic_value
    entropy : List ℝ) (c_entropy eps_clamp c_kl : ℝ)
    (kl_old_new : Option (List ℝ))
    (hlo : old_logp.length = logp_action.length)
    (hlc : critic_value.length = logp_action.length)
    (hle : entropy.length = logp_action.length)
    (hlk : ∀ klv, kl_old_new = some klv →
      klv.length = logp_action.length) :
    ((∃ x, ppo_loss logp_action old_logp critic_value entropy c_entropy
        eps_clamp c_kl kl_old_new = .ok x) ↔
      (c_kl = 0 ∨ kl_old_new ≠ none)) ∧
    (c_kl ≠ 0 → kl_old_new = none →
      ppo_loss logp_action old_logp critic_value entropy c_entropy
        eps_clamp c_kl kl_old_new =
        .error .valueErrorMissingOldDistr) ∧
    (∀ klv, kl_old_new = some klv →
      ppo_loss logp_action old_logp critic_value entropy c_entropy
          eps_clamp c_kl kl_old_new =
        (ppo_loss logp_action old_logp critic_value entropy c_entropy
          eps_clamp 0 kl_old_new).map
            (fun x => x + c_kl * tmean klv)) := by
  obtain ⟨L3, e4, hl3⟩ : ∃ L3,
      (if c_entropy ≠ 0 then
        tbin (fun l e => l - c_entropy * e)
          (List.zipWith (fun r cv => -(r * cv))
            (List.zipWith (fun lr cv =>
              Real.exp (if 0 < cv then min lr (Real.log (1 + eps_clamp))
                else max lr (Real.log (1 - eps_clamp))))
              (List.zipWith (fun a b => a - b) logp_action old_logp)
              critic_value)
            critic_value) entropy
      else pure (List.zipWith (fun r cv => -(r * cv))
        (List.zipWith (fun lr cv =>
          Real.exp (if 0 < cv then min lr (Real.log (1 + eps_clamp))
            else max lr (Real.log (1 - eps_clamp))))
          (List.zipWith (fun a b => a - b) logp_action old_logp)
          critic_value)
        critic_value)) = .ok L3 ∧ L3.length = logp_action.length := by
    by_cases hce : c_entropy = 0
    · exact ⟨List.zipWith (fun r cv => -(r * cv))
        (List.zipWith (fun lr cv =>
          Real.exp (if 0 < cv then min lr (Real.log (1 + eps_clamp))
            else max lr (Real.log (1 - eps_clamp))))
          (List.zipWith (fun a b => a - b) logp_action old_logp)
          critic_value)
        critic_value,
        by rw [if_neg (by simp [hce])]; rfl,
        by simp [hlo, hlc]⟩
    · exact ⟨List.zipWith (fun l e => l - c_entropy * e)
        (List.zipWith (fun r cv => -(r * cv))
          (List.zipWith (fun lr cv =>
            Real.exp (if 0 < cv then min lr (Real.log (1 + eps_clamp))
              else max lr (Real.log (1 - eps_clamp))))
            (List.zipWith (fun a b => a - b) logp_action old_logp)
            critic_value)
          critic_value) entropy,
        by rw [if_pos hce, tbin_eq_len _ _ _ (by simp [hlo, hlc, hle])],
        by simp [hlo, hlc, hle]⟩
  rcases kl_old_new with _ | klv
  · have run_none : ∀ ck : ℝ,
        ppo_loss logp_action old_logp critic_value entropy c_entropy
          eps_clamp ck none =
        ((if ck ≠ 0 then
            (Except.error PyErr.valueErrorMissingOldDistr :
              Except PyErr (List ℝ))
          else pure L3) >>= fun l4 => .ok (tmean l4)) := by
      intro ck
      unfold ppo_loss
      rw [tbin_eq_len _ _ _ hlo.symm, except_bind_ok]
      rw [tbin_eq_len _ _ _ (by simp [hlo, hlc]), except_bind_ok]
      rw [tbin_eq_len _ _ _ (by simp [hlo, hlc]), except_bind_ok]
      rw [e4, except_bind_ok]
    refine ⟨?_, ?_, ?_⟩
    · constructor
      · rintro ⟨x, hx⟩
        by_cases hck : c_kl = 0
        · exact Or.inl hck
        · rw [run_none c_kl, if_pos hck, except_bind_err] at hx
          simp at hx
      · rintro (hck | hne)
        · exact ⟨tmean L3,
            by rw [run_none c_kl, if_neg (by simp [hck]), except_pure_bind]⟩
        · exact absurd rfl hne
    · intro hck _
      rw [run_none c_kl, if_pos hck, except_bind_err]
    · intro klv h
      cases h
  · have run_some : ∀ ck : ℝ,
        ppo_loss logp_action old_logp critic_value entropy c_entropy
          eps_clamp ck (some klv) =
        ((if ck ≠ 0 then tbin (fun l k => l + ck * k) L3 klv
          else pure L3) >>= fun l4 => .ok (tmean l4)) := by
      intro ck
      unfold ppo_loss
      rw [tbin_eq_len _ _ _ hlo.symm, except_bind_ok]
      rw [tbin_eq_len _ _ _ (by simp [hlo, hlc]), except_bind_ok]
      rw [tbin_eq_len _ _ _ (by simp [hlo, hlc]), except_bind_ok]
      rw [e4, except_bind_ok]
    have hklen : klv.length = L3.length := by rw [hl3, hlk klv rfl]
    refine ⟨?_, ?_, ?_⟩
    · constructor
      · intro _
        exact Or.inr (by simp)
      · intro _
        by_cases hck : c_kl = 0
        · exact ⟨tmean L3,
            by rw [run_some c_kl, if_neg (by simp [hck]), except_pure_bind]⟩
        · exact ⟨tmean (List.zipWith (fun l k => l + c_kl * k) L3 klv),
            by rw [run_some c_kl, if_pos hck,
              tbin_eq_len _ _ _ hklen.symm, except_bind_ok]⟩
    · intro _ h
      cases h
    · intro klv' h
      obtain rfl : klv' = klv := by
        injection h with h'
        exact h'.symm
      rw [run_some c_kl, run_some 0]
      simp only [ne_eq, eq_self_iff_true, not_true_eq_false, if_false,
        except_pure_bind]
      by_cases hck : c_kl = 0
      · rw [if_neg (not_not_intro hck), except_pure_bind, except_map_ok]
        simp [hck]
      · rw [if_pos hck, tbin_eq_len _ _ _ hklen.symm, except_bind_ok,
          except_map_ok, tmean_zip_add_smul c_kl L3 klv' hklen.symm]

/-- Witness for C6: with `c_kl = 3` and no old distribution the loss
errors; with a supplied KL tensor `[2]` the loss is the `c_kl = 0` loss
plus `3 * mean [2]`. -/
theorem C6_kl_requires_old_distr_witness :
    ppo_loss [0] [0] [1] [1] 0 1 3 none =
        .error .valueErrorMissingOldDistr ∧
      ppo_loss [0] [0] [1] [1] 0 1 3 (some [2]) =
        (ppo_loss [0] [0] [1] [1] 0 1 0 (some [2])).map
          (fun x => x + 3 * tmean [2]) := by
  constructor
  · exact (C6_kl_requires_old_distr [0] [0] [1] [1] 0 1 3 none rfl rfl rfl
      (by intro klv h; cases h)).2.1 (by norm_num) rfl
  · exact (C6_kl_requires_old_distr [0] [0] [1] [1] 0 1 3 (some [2]) rfl
      rfl rfl (by intro klv h; cases h; rfl)).2.2 [2] rfl

lemma gmm_item_single (x mu s : List ℝ) (hm : mu.length = x.length)
    (hs : s.length = x.length) :
    gmm_item x [mu] [s] [0] none =
      .ok ((List.zipWith (fun p xv => normal_log_prob p.1 p.2 xv)
        (mu.zip s) x).sum) := by
  have hc : componentLogProbs x [mu] [s] [(0 : ℝ)] =
      .ok [0 + (List.zipWith (fun p xv => normal_log_prob p.1 p.2 xv)
        (mu.zip s) x).sum] := by
    simp [componentLogProbs, hm, hs, except_bind_ok]
  unfold gmm_item
  rw [hc, except_bind_ok]
  simp [except_pure_bind, sub_self, Real.exp_zero, Real.log_one]

lemma gmm_items_single :
    ∀ l : List (List ℝ × List ℝ × List ℝ),
      (∀ t ∈ l, t.2.1.length = t.1.length ∧ t.2.2.length = t.1.length) →
      gmm_items (l.map (fun t => t.1)) (l.map (fun t => [t.2.1]))
          (l.map (fun t => [t.2.2])) (l.map (fun _ => [(0 : ℝ)])) none =
        .ok (l.map (fun t => (List.zipWith (fun p xv =>
          normal_log_prob p.1 p.2 xv) (t.2.1.zip t.2.2) t.1).sum)) := by
  intro l
  induction l with
  | nil => intro _; simp [gmm_items]
  | cons t l ih =>
    intro h
    simp only [List.map_cons]
    show (gmm_item t.1 [t.2.1] [t.2.2] [0] none >>= fun hd =>
      gmm_items (l.map (fun t => t.1)) (l.map (fun t => [t.2.1]))
        (l.map (fun t => [t.2.2])) (l.map (fun _ => [(0 : ℝ)])) none >>=
          fun tl => .ok (hd :: tl)) = _
    rw [gmm_item_single t.1 t.2.1 t.2.2 (h t (by simp)).1 (h t (by simp)).2,
      except_bind_ok, ih (fun u hu => h u (by simp [hu])), except_bind_ok]

/-- C7: `gmm_loss` with a single mixture component (`gs = 1`,
`logpi = 0`) returns exactly the negative Gaussian log-likelihood of the
target, summed over features (per item with `reduce = false`, and its mean
with `reduce = true`): in exact arithmetic the max-subtraction
stabilization cancels out of the result.  Quantification is over a list
`l` of items `(x, mu, sigma)` with matching feature lengths. -/
theorem C7_gmm_single_component (l : List (List ℝ × List ℝ × List ℝ))
    (h : ∀ t ∈ l, t.2.1.length = t.1.length ∧ t.2.2.length = t.1.length) :
    gmm_loss (l.map (fun t => t.1)) (l.map (fun t => [t.2.1]))
        (l.map (fun t => [t.2.2])) (l.map (fun _ => [(0 : ℝ)])) none false =
      .ok (l.map (fun t => -(List.zipWith (fun p xv =>
        normal_log_prob p.1 p.2 xv) (t.2.1.zip t.2.2) t.1).sum)) ∧
    gmm_loss (l.map (fun t => t.1)) (l.map (fun t => [t.2.1]))
        (l.map (fun t => [t.2.2])) (l.map (fun _ => [(0 : ℝ)])) none true =
      .ok [-(tmean (l.map (fun t => (List.zipWith (fun p xv =>
        normal_log_prob p.1 p.2 xv) (t.2.1.zip t.2.2) t.1).sum)))] := by
  constructor
  · unfold gmm_loss
    rw [gmm_items_single l h, except_bind_ok]
    simp [List.map_map, Function.comp]
  · unfold gmm_loss
    rw [gmm_items_single l h, except_bind_ok]
    rfl

/-- Witness for C7 at the single item `x = [0]`, `mu = [0]`,
`sigma = [1]`: the loss is `log (sqrt (2 * pi))`. -/
theorem C7_gmm_single_component_witness :
    gmm_loss [[0]] [[[0]]] [[[1]]] [[0]] none false =
      .ok [Real.log (Real.sqrt (2 * Real.pi))] := by
  have h := (C7_gmm_single_component [([0], [0], [1])]
    (by intro t ht; simp at ht; simp [ht])).1
  simp only [List.map_cons, List.map_nil] at h
  rw [h]
  simp [normal_log_prob, Real.log_one]

/-- C10: whenever `gmm_loss` is called with a `correction_factor`, the
summed probability is rebuilt from the shifted probabilities of components
`0` and `1` only, so for `gs > 2` the components at index `2` and above
are excluded from the likelihood sum: the per-item log-probability equals
`log(c0 * exp v0 + exp v1)` where `v_k` is component `k`'s joint
log-probability and `c0` is the correction factor exactly when component
`0` attains the per-item maximum (the saturation mask) and `1` otherwise —
the trailing components influence only that maximum test. -/
theorem C10_correction_keeps_first_two_components (x : List ℝ)
    (mus sigmas : List (List ℝ)) (logpi : List ℝ) (cf v0 v1 : ℝ)
    (vrest : List ℝ) (hcf : 0 < cf)
    (hv : componentLogProbs x mus sigmas logpi =
      .ok (v0 :: v1 :: vrest)) :
    gmm_item x mus sigmas logpi (some cf) =
      .ok (Real.log
        ((if v0 = (v1 :: vrest).foldl max v0 then cf else 1) *
          Real.exp v0 + Real.exp v1)) ∧
    gmm_loss [x] [mus] [sigmas] [logpi] (some cf) false =
      .ok [-(Real.log
        ((if v0 = (v1 :: vrest).foldl max v0 then cf else 1) *
          Real.exp v0 + Real.exp v1))] := by
  have hitem : gmm_item x mus sigmas logpi (some cf) =
      .ok (Real.log
        ((if v0 = (v1 :: vrest).foldl max v0 then cf else 1) *
          Real.exp v0 + Real.exp v1)) := by
    unfold gmm_item
    rw [hv, except_bind_ok]
    simp only [List.map_cons, except_pure_bind, List.sum_cons,
      List.sum_nil, add_zero]
    set M : ℝ := (v1 :: vrest).foldl max v0 with hM
    by_cases h0 : v0 = M
    · rw [if_pos (by rw [h0, sub_self, Real.exp_zero]),
        if_pos h0]
      have hpos : 0 < cf + Real.exp (v1 - M) := by positivity
      rw [show Real.exp (v0 - M) * cf = cf by
        rw [h0, sub_self, Real.exp_zero, one_mul]]
      rw [show (M + Real.log (cf + Real.exp (v1 - M))) =
          Real.log (Real.exp M * (cf + Real.exp (v1 - M))) by
        rw [Real.log_mul (Real.exp_ne_zero M) hpos.ne', Real.log_exp]]
      congr 1
      rw [Real.exp_sub, h0]
      field_simp
    · rw [if_neg (by
        rw [Real.exp_eq_one_iff, sub_eq_zero]
        exact h0), if_neg h0]
      have hpos : 0 < Real.exp (v0 - M) + Real.exp (v1 - M) := by
        positivity
      rw [show (M + Real.log (Real.exp (v0 - M) + Real.exp (v1 - M))) =
          Real.log (Real.exp M *
            (Real.exp (v0 - M) + Real.exp (v1 - M))) by
        rw [Real.log_mul (Real.exp_ne_zero M) hpos.ne', Real.log_exp]]
      congr 1
      rw [Real.exp_sub, Real.exp_sub]
      field_simp
  refine ⟨hitem, ?_⟩
  unfold gmm_loss
  show (gmm_item x mus sigmas logpi (some cf) >>= fun hd =>
    gmm_items [] [] [] [] (some cf) >>= fun tl =>
      .ok (hd :: tl)) >>= _ = _
  rw [hitem, except_bind_ok]
  rfl

/-- Witness for C10 at a three-component mixture (`gs = 3`) with equal
components: the corrected likelihood keeps only components `0` and `1`
(component `0` carries the saturation correction `cf = 2`). -/
theorem C10_correction_keeps_first_two_components_witness :
    gmm_item [0] [[0], [0], [0]] [[1], [1], [1]] [0, 0, 0] (some 2) =
      .ok (Real.log (2 * Real.exp (normal_log_prob 0 1 0) +
        Real.exp (normal_log_prob 0 1 0))) := by
  have h := (C10_correction_keeps_first_two_components [0]
    [[0], [0], [0]] [[1], [1], [1]] [0, 0, 0] 2
    (normal_log_prob 0 1 0) (normal_log_prob 0 1 0)
    [normal_log_prob 0 1 0] (by norm_num)
    (by simp [componentLogProbs, except_bind_ok])).1
  rw [h]
  simp [max_self]

lemma bbin_eq_len (f : ℝ → ℝ → ℝ) (a b : List ℝ)
    (h : a.length = b.length) : bbin f a b = List.zipWith f a b := by
  simp [bbin, h]

lemma bbin_single (f : ℝ → ℝ → ℝ) (s : ℝ) (l : List ℝ) :
    bbin f [s] l = l.map (f s) := by
  rcases l with _ | ⟨y, l⟩
  · simp [bbin]
  · rcases l with _ | ⟨z, l⟩
    · simp [bbin]
    · simp [bbin]

lemma zip_negmul : ∀ lp cv : List ℝ,
    List.zipWith (fun a b => a * b) (lp.map (fun x => -x)) cv =
      (List.zipWith (fun a b => a * b) lp cv).map (fun z => -z) := by
  intro lp
  induction lp with
  | nil => intro cv; simp
  | cons x lp ih =>
    intro cv
    cases cv with
    | nil => simp
    | cons y cv => simp [ih]

lemma sum_map_affine (s c : ℝ) :
    ∀ l : List ℝ,
      (l.map (fun e => s - c * e)).sum = l.length * s - c * l.sum := by
  intro l
  induction l with
  | nil => simp
  | cons x l ih =>
    simp only [List.map_cons, List.sum_cons, ih, List.length_cons]
    push_cast
    ring

lemma tmean_affine (s c : ℝ) (l : List ℝ) (h : l ≠ []) :
    tmean (l.map (fun e => s - c * e)) = s - c * tmean l := by
  have hn : (l.length : ℝ) ≠ 0 := by
    simp [List.length_eq_zero, h]
  unfold tmean
  rw [List.length_map, sum_map_affine]
  field_simp
  ring

lemma sum_discrete_loss (c : ℝ) :
    ∀ lp cv ent : List ℝ, cv.length = lp.length →
      ent.length = lp.length →
      (List.zipWith (fun a b => a - b)
        (List.zipWith (fun a b => a * b) (lp.map (fun x => -x)) cv)
        (ent.map (fun e => c * e))).sum =
      -((List.zipWith (fun a b => a * b) lp cv).sum) - c * ent.sum := by
  intro lp
  induction lp with
  | nil =>
    intro cv ent hc he
    have hcv : cv = [] := List.length_eq_zero.mp hc
    have hent : ent = [] := List.length_eq_zero.mp he
    simp [hcv, hent]
  | cons x lp ih =>
    intro cv ent hc he
    cases cv with
    | nil => simp at hc
    | cons y cv =>
      cases ent with
      | nil => simp at he
      | cons e ent =>
        simp only [List.map_cons, List.zipWith_cons_cons, List.sum_cons]
        rw [ih cv ent (by simpa using hc) (by simpa using he)]
        ring

/-- C8: the loss whose gradient step the A2C actors take (both the
continuous and the discrete variant) equals
`-mean(log_prob(actions) * advantage) - c_entropy * mean(entropy)`, and
its autograd graph does not reach the caller-supplied advantage
(`critic_value` is detached), whatever the advantage's own
gradient-tracking state. -/
theorem C8_a2c_actor_loss (logp_action entropy critic_value : List ℝ)
    (adv_grad : Bool) (c_entropy : ℝ)
    (hc : critic_value.length = logp_action.length)
    (he : entropy.length = logp_action.length) (hne : entropy ≠ []) :
    (a2c_continuous_loss logp_action entropy
        ⟨critic_value, adv_grad⟩ c_entropy).val =
      [-(tmean (List.zipWith (fun a b => a * b) logp_action
        critic_value)) - c_entropy * tmean entropy] ∧
    (a2c_continuous_loss logp_action entropy
        ⟨critic_value, adv_grad⟩ c_entropy).advGrad = false ∧
    (a2c_discrete_loss logp_action entropy
        ⟨critic_value, adv_grad⟩ c_entropy).val =
      [-(tmean (List.zipWith (fun a b => a * b) logp_action
        critic_value)) - c_entropy * tmean entropy] ∧
    (a2c_discrete_loss logp_action entropy
        ⟨critic_value, adv_grad⟩ c_entropy).advGrad = false := by
  refine ⟨?_, rfl, ?_, rfl⟩
  · simp only [a2c_continuous_loss, TT.meanT, TT.binop, TT.negT,
      TT.detach, TT.smul]
    rw [bbin_eq_len (fun a b => a * b) _ _ (by simp [hc]), zip_negmul,
      tmean_map_negate, bbin_single, List.map_map]
    rw [show ((fun a b => a - b)
        (-tmean (List.zipWith (fun a b => a * b) logp_action
          critic_value)) ∘ fun x => c_entropy * x) =
      (fun e => -tmean (List.zipWith (fun a b => a * b) logp_action
        critic_value) - c_entropy * e) from rfl]
    rw [tmean_affine _ _ _ hne]
  · simp only [a2c_discrete_loss, TT.meanT, TT.binop, TT.negT,
      TT.detach, TT.smul]
    rw [bbin_eq_len (fun a b => a * b) _ _ (by simp [hc]),
      bbin_eq_len (fun a b => a - b) _ _ (by simp [hc, he])]
    unfold tmean
    rw [sum_discrete_loss c_entropy logp_action critic_value entropy hc he]
    have hlen : (List.zipWith (fun a b => a - b)
        (List.zipWith (fun a b => a * b)
          (logp_action.map (fun x => -x)) critic_value)
        (entropy.map (fun e => c_entropy * e))).length =
        logp_action.length := by
      simp [hc, he]
    rw [hlen]
    have hlen2 : (List.zipWith (fun a b => a * b) logp_action
        critic_value).length = logp_action.length := by
      simp [hc]
    rw [hlen2, he]
    rw [sub_div, neg_div, mul_div_assoc]

/-- Witness for C8 at `logp = [1]`, `entropy = [2]`, advantage `[3]`
(marked gradient-tracking), `c_entropy = 5`: both losses are `[-13]` and
neither reaches the advantage in the gradient graph. -/
theorem C8_a2c_actor_loss_witness :
    (a2c_continuous_loss [1] [2] ⟨[3], true⟩ 5).val = [-13] ∧
      (a2c_continuous_loss [1] [2] ⟨[3], true⟩ 5).advGrad = false ∧
      (a2c_discrete_loss [1] [2] ⟨[3], true⟩ 5).val = [-13] ∧
      (a2c_discrete_loss [1] [2] ⟨[3], true⟩ 5).advGrad = false := by
  have h := C8_a2c_actor_loss [1] [2] [3] true 5 rfl rfl (by simp)
  refine ⟨?_, h.2.1, ?_, h.2.2.2⟩
  · rw [h.1]
    norm_num [tmean]
  · rw [h.2.2.1]
    norm_num [tmean]
